import Mathlib

set_option maxRecDepth 8192

/-!
Verification of the in-memory assembler and URI/pattern utilities of the
amazon-s3-tar-tool repository (package `s3tar`).

The Go sources under verification are `mem_concat.go` (the in-memory
assembler: `buildInMemoryConcat`, `tarGroup`, `splitSliceBySizeLimit`,
`findLargestObject`, `uploadObject`, `uploadPart`) and `utils_test.go`
(the unit tests pinning down `ExtractBucketAndPath` and `matchesRegexp`,
whose bodies live in a file not present here and are therefore modelled
from the specification).

Modelling conventions:
* byte strings are `List Nat` (each entry one byte value);
* machine `int64` sizes are `Nat` (the data model declares sizes
  nonnegative and no subtraction on sizes occurs in the embedded code);
* the object-store side effects of the assembler are reified as a trace
  of `StoreAction` values in the order the sequential plan issues them
  (the errgroup dispatch in `processGroups` pre-assigns part numbers
  from plan order, so the completed object is order-independent);
* the tar header codec (Go `archive/tar`, external to the repository) is
  modelled from the specification, section 4.1: a fixed 512-byte header
  per member (names of at most 100 bytes, whole-second times), zero
  padding of `(-L) mod 512` bytes after a payload of length `L`, and a
  trailer of two zero-filled 512-byte blocks.
-/

/-! ## Constants (specification section 3, binding values) -/

def tarBlockSize : Nat := 512

def partSizeMin : Nat := 5 * 1024 * 1024

def partSizeMax : Nat := 5 * 1024 * 1024 * 1024

def fileSizeMin : Nat := partSizeMin

def maxPartNumLimit : Nat := 10000

/-! ## Object reference model -/

/-- One archive member: an existing remote object or a synthesized inline
blob (`S3Obj` in the Go source).  `data` models the member's byte
content: the `Data` field when inline, otherwise the bytes returned by
`downloadS3Data`.  `size` mirrors the `Size` field, which is
authoritative for planning. -/
structure S3Obj where
  key : String
  size : Nat
  data : List Nat
  deriving DecidableEq

/-- Sum of the `Size` fields of a plan segment; this is the quantity the
`currentSize` accumulator of `splitSliceBySizeLimit` tracks. -/
def sumSize : List S3Obj → Nat
  | [] => 0
  | o :: rest => o.size + sumSize rest

/-- Embedding of `findLargestObject` (mem_concat.go lines 159-170): a
running maximum over the `Size` fields starting from 0. -/
def findLargestObject (objectList : List S3Obj) : Nat :=
  objectList.foldl (fun acc o => max acc o.size) 0

/-! ## Tar header codec (modelled from the spec, section 4.1) -/

/-- Modelled from the spec: the 100-byte name field of a tar header
(the codec itself, Go `archive/tar`, is not part of this repository);
the key's bytes, truncated to 100 and zero-padded to 100. -/
def nameField (key : String) : List Nat :=
  (key.toList.map Char.toNat).take 100 ++ List.replicate (100 - key.length) 0

/-- Modelled from the spec: a fixed-width 12-byte size field. -/
def sizeField (n : Nat) : List Nat :=
  (List.range 12).map fun i => n / 256 ^ i % 256

/-- Modelled from the spec: the 512-byte tar header block for one member
(name, size, and the remaining fields — mode 0600, times, type —
abstracted as the zero-filled remainder of the block). -/
def headerBlock (o : S3Obj) : List Nat :=
  nameField o.key ++ sizeField o.size ++ List.replicate 400 0

/-- Zero padding after a payload of length `L`: `(-L) mod 512` bytes
(spec section 4.1). -/
def padLen (n : Nat) : Nat := (512 - n % 512) % 512

/-- One tar member as written by the loop body of `tarGroup`
(mem_concat.go lines 222-261): header block, payload bytes, padding. -/
def tarMember (o : S3Obj) : List Nat :=
  headerBlock o ++ o.data ++ List.replicate (padLen o.size) 0

/-- The member stream of a group: the members appended in plan order. -/
def tarBody (objectList : List S3Obj) : List Nat :=
  (objectList.map tarMember).flatten

/-- A zero-filled 512-byte block. -/
def zeroBlock : List Nat := List.replicate 512 0

/-- Embedding of `tarGroup` (mem_concat.go lines 218-272): each object's
header and payload written into one buffer, then `tw.Close()` appends
the two-zero-block trailer (1024 bytes). -/
def tarGroup (objectList : List S3Obj) : List Nat :=
  tarBody objectList ++ List.replicate 1024 0

/-- Single-pass tar of a whole plan as the specification words it
(section 8, invariant 1, with the header/payload/pad order of the tar
wire format): concatenation of header(i), payload(i), pad(i) for every
member, followed by two zero blocks.  Stated from the spec's words to be
compared against the source-derived assembly. -/
def singlePassTar (objectList : List S3Obj) : List Nat :=
  (objectList.map fun o =>
    headerBlock o ++ o.data ++ List.replicate (padLen o.size) 0).flatten
    ++ zeroBlock ++ zeroBlock

/-! ## Grouping -/

/-- Loop of `splitSliceBySizeLimit` (mem_concat.go lines 278-295), with
the current group and its accumulated size as explicit state: each
object is appended to the current group; the group closes as soon as its
accumulated size exceeds both the size limit and `fileSizeMin`. -/
def splitAux (groupSizeLimit : Nat) :
    List S3Obj → List S3Obj → Nat → List (List S3Obj)
  | [], currentGroup, _ =>
    if currentGroup = [] then [] else [currentGroup]
  | o :: rest, currentGroup, currentSize =>
    if currentSize + o.size > groupSizeLimit ∧ currentSize + o.size > fileSizeMin then
      (currentGroup ++ [o]) :: splitAux groupSizeLimit rest [] 0
    else
      splitAux groupSizeLimit rest (currentGroup ++ [o]) (currentSize + o.size)

/-- Embedding of `splitSliceBySizeLimit` (mem_concat.go lines 274-302). -/
def splitSliceBySizeLimit (groupSizeLimit : Nat) (objectList : List S3Obj) :
    List (List S3Obj) :=
  splitAux groupSizeLimit objectList [] 0

/-! ## Basic lemmas about the grouping -/

theorem sumSize_append (l tail : List S3Obj) :
    sumSize (l ++ tail) = sumSize l + sumSize tail := by
  induction l with
  | nil => simp [sumSize]
  | cons o rest ih => simp [sumSize, ih, Nat.add_assoc]

theorem splitAux_join (groupSizeLimit : Nat) (rest : List S3Obj) :
    ∀ currentGroup currentSize,
      (splitAux groupSizeLimit rest currentGroup currentSize).flatten
        = currentGroup ++ rest := by
  induction rest with
  | nil =>
    intro currentGroup currentSize
    by_cases h : currentGroup = [] <;> simp [splitAux, h]
  | cons o rest ih =>
    intro currentGroup currentSize
    by_cases h : currentSize + o.size > groupSizeLimit ∧
        currentSize + o.size > fileSizeMin
    · simp [splitAux, h, ih]
    · simp [splitAux, h, ih]

theorem splitAux_ne_nil (groupSizeLimit : Nat) (rest : List S3Obj) :
    ∀ currentGroup currentSize g,
      g ∈ splitAux groupSizeLimit rest currentGroup currentSize → g ≠ [] := by
  induction rest with
  | nil =>
    intro currentGroup currentSize g hg
    by_cases h : currentGroup = [] <;> simp [splitAux, h] at hg
    subst hg; exact h
  | cons o rest ih =>
    intro currentGroup currentSize g hg
    by_cases h : currentSize + o.size > groupSizeLimit ∧
        currentSize + o.size > fileSizeMin
    · simp [splitAux, h] at hg
      rcases hg with hg | hg
      · subst hg; simp
      · exact ih [] 0 g hg
    · simp [splitAux, h] at hg
      exact ih _ _ g hg

theorem splitAux_dropLast_gt (groupSizeLimit : Nat) (rest : List S3Obj) :
    ∀ currentGroup,
      ∀ g ∈ (splitAux groupSizeLimit rest currentGroup (sumSize currentGroup)).dropLast,
        fileSizeMin < sumSize g := by
  induction rest with
  | nil =>
    intro currentGroup g hg
    by_cases h : currentGroup = [] <;> simp [splitAux, h] at hg
  | cons o rest ih =>
    intro currentGroup g hg
    by_cases h : sumSize currentGroup + o.size > groupSizeLimit ∧
        sumSize currentGroup + o.size > fileSizeMin
    · rw [splitAux, if_pos h] at hg
      rcases htail : splitAux groupSizeLimit rest [] 0 with _ | ⟨t, ts⟩
      · rw [htail] at hg; simp at hg
      · rw [htail, List.dropLast_cons₂] at hg
        rcases List.mem_cons.mp hg with hg | hg
        · subst hg
          have : sumSize (currentGroup ++ [o]) = sumSize currentGroup + o.size := by
            simp [sumSize_append, sumSize]
          rw [this]; exact h.2
        · have hrec := ih []
          simp only [sumSize, htail] at hrec
          exact hrec g hg
    · rw [splitAux, if_neg h] at hg
      have : sumSize currentGroup + o.size = sumSize (currentGroup ++ [o]) := by
        simp [sumSize_append, sumSize]
      rw [this] at hg
      exact ih (currentGroup ++ [o]) g hg

/-! ## The in-memory assembler -/

/-- Object-store operations the in-memory assembler can issue, in the
order the plan issues them (PutObject for the small path; the multipart
calls for the grouped path). -/
inductive StoreAction where
  | putObject (data : List Nat)
  | createMultipartUpload
  | uploadPart (partNum : Nat) (data : List Nat)
  | completeMultipartUpload
  deriving DecidableEq

/-- Terminal errors of `buildInMemoryConcat`: the member-too-large error
(Go: "largest object is over the 5GiB limit") and the part-budget error
(Go: "number of parts (...) exceeded the number of mpu parts allowed
(10k)"). -/
inductive BuildError where
  | sourceTooLarge
  | partBudgetExceeded
  deriving DecidableEq

/-- Modelled from the spec: `findMinimumPartSize` is called by
`buildInMemoryConcat` but its body is not under the present sources;
per sections 4.3-4.4 the group ceiling is the user-supplied target part
size bounded below by `partSizeMin` and above by `partSizeMax`. -/
def findMinimumPartSize (estimatedSize userMaxPartSize : Nat) : Nat :=
  min (max userMaxPartSize partSizeMin) partSizeMax

/-- Strip of the trailing two zero blocks performed on every non-last
group buffer (mem_concat.go lines 91-93: `data = data[0 : len(data)-1024]`). -/
def stripTrailer (data : List Nat) : List Nat :=
  data.take (data.length - 1024)

/-- The (part number, part bytes) pairs produced by the loop of
`processGroups` (mem_concat.go lines 79-108), numbering from `first`:
every group is tarred into its own buffer; every group but the last has
the 1024-byte tar EOF stripped. -/
def partsOf (first : Nat) : List (List S3Obj) → List (Nat × List Nat)
  | [] => []
  | [g] => [(first, tarGroup g)]
  | g :: g2 :: gs =>
    (first, stripTrailer (tarGroup g)) :: partsOf (first + 1) (g2 :: gs)

/-- Embedding of `buildInMemoryConcat` (mem_concat.go lines 20-150) as
the trace of store operations it issues plus its error outcome.  The
commented-out TOC block (lines 40-45) is dead code and contributes
nothing: the object list is used as given. -/
def buildInMemoryConcat (objectList : List S3Obj)
    (estimatedSize userMaxPartSize : Nat) :
    List StoreAction × Option BuildError :=
  if findLargestObject objectList > partSizeMax then
    ([], some BuildError.sourceTooLarge)
  else if estimatedSize < fileSizeMin then
    ([StoreAction.putObject (tarGroup objectList)], none)
  else if (splitSliceBySizeLimit (findMinimumPartSize estimatedSize userMaxPartSize)
      objectList).length > maxPartNumLimit then
    ([], some BuildError.partBudgetExceeded)
  else
    (StoreAction.createMultipartUpload ::
      ((partsOf 1 (splitSliceBySizeLimit
          (findMinimumPartSize estimatedSize userMaxPartSize) objectList)).map
        fun p => StoreAction.uploadPart p.1 p.2) ++
      [StoreAction.completeMultipartUpload], none)

/-- The bytes of the destination object determined by a trace: the
PutObject body, or the uploaded parts concatenated in part order (the
order `CompleteMultipartUpload` assembles them). -/
def archiveBytes (trace : List StoreAction) : List Nat :=
  match trace with
  | [] => []
  | StoreAction.putObject d :: rest => d ++ archiveBytes rest
  | StoreAction.uploadPart _ d :: rest => d ++ archiveBytes rest
  | _ :: rest => archiveBytes rest

/-- The (part number, bytes) pairs of the multipart parts appearing in a
trace, in issue order. -/
def uploadedParts (trace : List StoreAction) : List (Nat × List Nat) :=
  trace.filterMap fun a =>
    match a with
    | StoreAction.uploadPart n d => some (n, d)
    | _ => none

/-! ## Assembly lemmas -/

theorem stripTrailer_tarGroup (g : List S3Obj) :
    stripTrailer (tarGroup g) = tarBody g := by
  unfold stripTrailer tarGroup
  rw [List.length_append, List.length_replicate, Nat.add_sub_cancel,
    List.take_left]

theorem tarBody_append (l tail : List S3Obj) :
    tarBody (l ++ tail) = tarBody l ++ tarBody tail := by
  simp [tarBody]

theorem tarGroup_eq_singlePassTar (objectList : List S3Obj) :
    tarGroup objectList = singlePassTar objectList := by
  unfold tarGroup singlePassTar tarBody tarMember zeroBlock
  rw [List.append_assoc, ← List.replicate_add]

theorem partsOf_bytes (gs : List (List S3Obj)) :
    ∀ first, gs ≠ [] →
      ((partsOf first gs).map Prod.snd).flatten = tarBody gs.flatten ++ List.replicate 1024 0 := by
  induction gs with
  | nil => intro first h; simp at h
  | cons g gs ih =>
    intro first _
    rcases gs with _ | ⟨g2, gs⟩
    · rw [partsOf]
      simp only [List.map_cons, List.map_nil, List.flatten_cons,
        List.flatten_nil, List.append_nil, tarGroup]
    · rw [partsOf]
      have htail := ih (first + 1) (by simp)
      simp only [List.map_cons, List.flatten_cons, htail, stripTrailer_tarGroup]
      simp only [tarBody_append, List.append_assoc]

theorem partsOf_numbers (gs : List (List S3Obj)) :
    ∀ first, (partsOf first gs).map Prod.fst = List.range' first gs.length := by
  induction gs with
  | nil => intro first; simp [partsOf]
  | cons g gs ih =>
    intro first
    rcases gs with _ | ⟨g2, gs⟩
    · simp [partsOf, List.range']
    · rw [partsOf]
      simp only [List.map_cons, ih (first + 1), List.length_cons, List.range']

theorem partsOf_length (gs : List (List S3Obj)) :
    ∀ first, (partsOf first gs).length = gs.length := by
  induction gs with
  | nil => intro first; simp [partsOf]
  | cons g gs ih =>
    intro first
    rcases gs with _ | ⟨g2, gs⟩
    · simp [partsOf]
    · rw [partsOf]
      simp [ih (first + 1)]

/-! ## Lemmas about the member-size check -/

theorem findLargestObject_le_iff (objectList : List S3Obj) (c : Nat) :
    ∀ acc, objectList.foldl (fun a o => max a o.size) acc ≤ c ↔
      acc ≤ c ∧ ∀ o ∈ objectList, o.size ≤ c := by
  induction objectList with
  | nil => intro acc; simp
  | cons o rest ih =>
    intro acc
    rw [List.foldl_cons, ih (max acc o.size)]
    constructor
    · rintro ⟨hm, hrest⟩
      have h1 : acc ≤ c := le_trans (le_max_left _ _) hm
      have h2 : o.size ≤ c := le_trans (le_max_right _ _) hm
      exact ⟨h1, fun x hx => by
        rcases List.mem_cons.mp hx with hx | hx
        · subst hx; exact h2
        · exact hrest x hx⟩
    · rintro ⟨hacc, hall⟩
      exact ⟨max_le hacc (hall o (by simp)), fun x hx => hall x (by simp [hx])⟩

theorem findLargestObject_gt_iff (objectList : List S3Obj) (c : Nat) :
    findLargestObject objectList > c ↔ ∃ o ∈ objectList, c < o.size := by
  unfold findLargestObject
  rw [← not_iff_not]
  push_neg
  rw [findLargestObject_le_iff objectList c 0]
  simp

theorem size_le_sumSize (l : List S3Obj) : ∀ o ∈ l, o.size ≤ sumSize l := by
  induction l with
  | nil => simp
  | cons x rest ih =>
    intro o ho
    rcases List.mem_cons.mp ho with h | h
    · subst h; simp [sumSize]
    · exact le_trans (ih o h) (by simp [sumSize])

theorem findLargestObject_le_sumSize (objectList : List S3Obj) :
    findLargestObject objectList ≤ sumSize objectList := by
  unfold findLargestObject
  rw [findLargestObject_le_iff objectList (sumSize objectList) 0]
  exact ⟨Nat.zero_le _, size_le_sumSize objectList⟩

/-! ## Length lemmas for the tar stream -/

theorem nameField_length (key : String) : (nameField key).length = 100 := by
  unfold nameField
  rw [List.length_append, List.length_take, List.length_replicate,
    List.length_map]
  have h : key.toList.length = key.length := rfl
  omega

theorem headerBlock_length (o : S3Obj) : (headerBlock o).length = 512 := by
  unfold headerBlock sizeField
  rw [List.length_append, List.length_append, nameField_length,
    List.length_map, List.length_range, List.length_replicate]

theorem tarMember_length (o : S3Obj) :
    (tarMember o).length = 512 + o.data.length + padLen o.size := by
  unfold tarMember
  rw [List.length_append, List.length_append, headerBlock_length,
    List.length_replicate]

theorem sumSize_le_tarBody_length (g : List S3Obj)
    (h : ∀ o ∈ g, o.data.length = o.size) :
    sumSize g ≤ (tarBody g).length := by
  induction g with
  | nil => simp [sumSize, tarBody]
  | cons o rest ih =>
    have ho : o.data.length = o.size := h o (by simp)
    have hrest := ih (fun x hx => h x (by simp [hx]))
    have : tarBody (o :: rest) = tarMember o ++ tarBody rest := by
      simp [tarBody]
    rw [this, List.length_append, tarMember_length, ho, sumSize]
    omega

theorem tarGroup_length (g : List S3Obj) :
    (tarGroup g).length = (tarBody g).length + 1024 := by
  unfold tarGroup
  rw [List.length_append, List.length_replicate]

/-! ## Branch characterizations of the assembler -/

theorem buildInMemoryConcat_mpu (objectList : List S3Obj)
    (estimatedSize userMaxPartSize : Nat)
    (hl : ¬ findLargestObject objectList > partSizeMax)
    (he : ¬ estimatedSize < fileSizeMin)
    (hg : ¬ (splitSliceBySizeLimit (findMinimumPartSize estimatedSize userMaxPartSize)
        objectList).length > maxPartNumLimit) :
    buildInMemoryConcat objectList estimatedSize userMaxPartSize
      = (StoreAction.createMultipartUpload ::
          ((partsOf 1 (splitSliceBySizeLimit
              (findMinimumPartSize estimatedSize userMaxPartSize) objectList)).map
            fun p => StoreAction.uploadPart p.1 p.2) ++
          [StoreAction.completeMultipartUpload], none) := by
  rw [buildInMemoryConcat, if_neg hl, if_neg he, if_neg hg]

theorem buildInMemoryConcat_not_large (objectList : List S3Obj)
    (estimatedSize userMaxPartSize : Nat)
    (hl : ¬ findLargestObject objectList > partSizeMax) :
    (buildInMemoryConcat objectList estimatedSize userMaxPartSize).2
      ≠ some BuildError.sourceTooLarge := by
  rw [buildInMemoryConcat, if_neg hl]
  by_cases he : estimatedSize < fileSizeMin
  · rw [if_pos he]; simp
  · rw [if_neg he]
    by_cases hg : (splitSliceBySizeLimit
        (findMinimumPartSize estimatedSize userMaxPartSize)
        objectList).length > maxPartNumLimit
    · rw [if_pos hg]; simp
    · rw [if_neg hg]; simp

theorem archiveBytes_parts (parts : List (Nat × List Nat)) :
    archiveBytes ((parts.map fun p => StoreAction.uploadPart p.1 p.2) ++
        [StoreAction.completeMultipartUpload])
      = (parts.map Prod.snd).flatten := by
  induction parts with
  | nil => rfl
  | cons p ps ih =>
    simp only [List.map_cons, List.cons_append, archiveBytes, List.append_eq,
      ih, List.flatten_cons]

theorem archiveBytes_mpu (parts : List (Nat × List Nat)) :
    archiveBytes (StoreAction.createMultipartUpload ::
        (parts.map fun p => StoreAction.uploadPart p.1 p.2) ++
        [StoreAction.completeMultipartUpload])
      = (parts.map Prod.snd).flatten := by
  rw [show (StoreAction.createMultipartUpload ::
        (parts.map fun p => StoreAction.uploadPart p.1 p.2) ++
        [StoreAction.completeMultipartUpload])
      = StoreAction.createMultipartUpload ::
        ((parts.map fun p => StoreAction.uploadPart p.1 p.2) ++
        [StoreAction.completeMultipartUpload]) from rfl]
  rw [show archiveBytes (StoreAction.createMultipartUpload ::
        ((parts.map fun p => StoreAction.uploadPart p.1 p.2) ++
        [StoreAction.completeMultipartUpload]))
      = archiveBytes ((parts.map fun p => StoreAction.uploadPart p.1 p.2) ++
        [StoreAction.completeMultipartUpload]) from rfl]
  exact archiveBytes_parts parts

theorem uploadedParts_mpu (parts : List (Nat × List Nat)) :
    uploadedParts (StoreAction.createMultipartUpload ::
        (parts.map fun p => StoreAction.uploadPart p.1 p.2) ++
        [StoreAction.completeMultipartUpload])
      = parts := by
  induction parts with
  | nil => rfl
  | cons p ps ih =>
    rcases p with ⟨n, d⟩
    show (n, d) :: uploadedParts
        ((ps.map fun p => StoreAction.uploadPart p.1 p.2) ++
          [StoreAction.completeMultipartUpload])
      = (n, d) :: ps
    have ih2 : uploadedParts
        ((ps.map fun p => StoreAction.uploadPart p.1 p.2) ++
          [StoreAction.completeMultipartUpload]) = ps := ih
    rw [ih2]

theorem partsOf_dropLast (gs : List (List S3Obj)) :
    ∀ first, ∀ p ∈ (partsOf first gs).dropLast,
      ∃ g ∈ gs.dropLast, p.2 = stripTrailer (tarGroup g) := by
  induction gs with
  | nil => intro first p hp; simp [partsOf] at hp
  | cons g gs ih =>
    intro first p hp
    rcases gs with _ | ⟨g2, gs⟩
    · simp [partsOf] at hp
    · rw [partsOf] at hp
      rcases hq : partsOf (first + 1) (g2 :: gs) with _ | ⟨q, qs⟩
      · have := partsOf_length (g2 :: gs) (first + 1)
        rw [hq] at this
        simp at this
      · rw [hq, List.dropLast_cons₂] at hp
        rcases List.mem_cons.mp hp with hp | hp
        · subst hp
          refine ⟨g, ?_, ?_⟩
          · rw [List.dropLast_cons₂]
            exact List.mem_cons_self g _
          · rfl
        · have hrec := ih (first + 1)
          rw [hq] at hrec
          rcases hrec p hp with ⟨g3, hg3, he3⟩
          refine ⟨g3, ?_, he3⟩
          rw [List.dropLast_cons₂]
          exact List.mem_cons_of_mem _ hg3

/-! ## Claim C10 -/

/-- C10: for every size limit and every object list,
`splitSliceBySizeLimit` returns an order-preserving partition of its
input — concatenating the returned groups in order yields exactly the
input list (no entry dropped, duplicated, or reordered) — and every
returned group is non-empty. -/
theorem splitSliceBySizeLimit_partition (groupSizeLimit : Nat)
    (objectList : List S3Obj) :
    (splitSliceBySizeLimit groupSizeLimit objectList).flatten = objectList ∧
    ∀ g ∈ splitSliceBySizeLimit groupSizeLimit objectList, g ≠ [] := by
  constructor
  · simpa using splitAux_join groupSizeLimit objectList [] 0
  · exact fun g hg => splitAux_ne_nil groupSizeLimit objectList [] 0 g hg

/-- Witness for C10 at a concrete input. -/
theorem splitSliceBySizeLimit_partition_witness :
    (splitSliceBySizeLimit 5 [⟨"a", 3, []⟩]).flatten = [⟨"a", 3, []⟩] ∧
    ([(⟨"a", 3, []⟩ : S3Obj)] : List S3Obj) ≠ [] := by
  have h := splitSliceBySizeLimit_partition 5 [⟨"a", 3, []⟩]
  exact ⟨h.1, h.2 [⟨"a", 3, []⟩] (by decide)⟩

/-! ## Claim C5 -/

/-- C5 counterexample: with size limit `partSizeMin` and the input
consisting of one 6 MiB object followed by one 1 KiB object,
`splitSliceBySizeLimit` returns two groups; the trailing group has
cumulative size 1 KiB, far below the minimum part size, even though a
preceding group exists — it is not merged into its predecessor. -/
theorem splitSliceBySizeLimit_no_merge_cex :
    splitSliceBySizeLimit partSizeMin
        [⟨"a", 6291456, []⟩, ⟨"b", 1024, []⟩]
      = [[⟨"a", 6291456, []⟩], [⟨"b", 1024, []⟩]] ∧
    sumSize [⟨"b", 1024, []⟩] < partSizeMin := by
  constructor
  · decide
  · decide

/-- C5 (amended): `splitSliceBySizeLimit` closes a group only once its
cumulative size exceeds both the size limit and `fileSizeMin`, so every
group except the last exceeds `fileSizeMin`; the trailing group may fall
below the minimum part size and is not merged into its predecessor (it
becomes the terminal multipart part, which may legally be short). -/
theorem splitSliceBySizeLimit_dropLast_gt (groupSizeLimit : Nat)
    (objectList : List S3Obj) :
    ∀ g ∈ (splitSliceBySizeLimit groupSizeLimit objectList).dropLast,
      fileSizeMin < sumSize g := by
  have h := splitAux_dropLast_gt groupSizeLimit objectList []
  simpa only [sumSize] using h

/-- Witness for the amended C5 at a concrete input. -/
theorem splitSliceBySizeLimit_dropLast_gt_witness :
    fileSizeMin < sumSize [⟨"a", 6291456, ([] : List Nat)⟩] := by
  exact splitSliceBySizeLimit_dropLast_gt partSizeMin
    [⟨"a", 6291456, []⟩, ⟨"b", 1024, []⟩] [⟨"a", 6291456, []⟩] (by decide)

/-! ## Claim C1 -/

/-- C1: for every object list whose total estimated size is below
`fileSizeMin` (= `partSizeMin`), `buildInMemoryConcat` tars the whole
list in memory and issues a single PutObject of those bytes — no
multipart upload is created; in particular, a single 4 MiB member yields
an uploaded body of exactly 4 MiB + 512 + 1024 bytes (header block,
payload, two-zero-block trailer, no padding since 4 MiB is a multiple
of 512). -/
theorem buildInMemoryConcat_small (objectList : List S3Obj)
    (estimatedSize userMaxPartSize : Nat)
    (hsum : sumSize objectList ≤ estimatedSize)
    (hest : estimatedSize < fileSizeMin) :
    buildInMemoryConcat objectList estimatedSize userMaxPartSize
      = ([StoreAction.putObject (tarGroup objectList)], none) ∧
    ∀ o : S3Obj, o.size = 4 * 1024 * 1024 → o.data.length = o.size →
      (tarGroup [o]).length = 4 * 1024 * 1024 + 512 + 1024 := by
  constructor
  · have h1 := findLargestObject_le_sumSize objectList
    have hfp : fileSizeMin ≤ partSizeMax := by decide
    have hl : ¬ findLargestObject objectList > partSizeMax := by omega
    rw [buildInMemoryConcat, if_neg hl, if_pos hest]
  · intro o hsize hdata
    have hb : (tarBody [o]).length = 512 + o.data.length + padLen o.size := by
      simp [tarBody, tarMember_length]
    rw [tarGroup_length, hb, hdata, hsize]
    decide

/-- Witness for C1 at a concrete input (one 4 MiB member, estimated size
below `fileSizeMin`). -/
theorem buildInMemoryConcat_small_witness :
    buildInMemoryConcat [⟨"k", 4194304, []⟩] 4200000 0
      = ([StoreAction.putObject (tarGroup [⟨"k", 4194304, []⟩])], none) :=
  (buildInMemoryConcat_small [⟨"k", 4194304, []⟩] 4200000 0
    (by decide) (by decide)).1

/-! ## Claim C3 -/

/-- C3: `buildInMemoryConcat` fails with the member-too-large error
exactly when some member's `Size` exceeds `partSizeMax` (5 GiB) — a
member of exactly `partSizeMax` is accepted — and on this error no
object-store write (PutObject or CreateMultipartUpload) has been
issued. -/
theorem buildInMemoryConcat_sourceTooLarge_iff (objectList : List S3Obj)
    (estimatedSize userMaxPartSize : Nat) :
    ((buildInMemoryConcat objectList estimatedSize userMaxPartSize).2
        = some BuildError.sourceTooLarge
      ↔ ∃ o ∈ objectList, partSizeMax < o.size) ∧
    ((buildInMemoryConcat objectList estimatedSize userMaxPartSize).2
        = some BuildError.sourceTooLarge →
      (buildInMemoryConcat objectList estimatedSize userMaxPartSize).1 = []) := by
  by_cases hl : findLargestObject objectList > partSizeMax
  · have hbuild : buildInMemoryConcat objectList estimatedSize userMaxPartSize
        = ([], some BuildError.sourceTooLarge) := by
      rw [buildInMemoryConcat, if_pos hl]
    rw [hbuild]
    exact ⟨⟨fun _ => (findLargestObject_gt_iff objectList partSizeMax).mp hl,
      fun _ => rfl⟩, fun _ => rfl⟩
  · have hne := buildInMemoryConcat_not_large objectList estimatedSize
      userMaxPartSize hl
    refine ⟨⟨fun h => absurd h hne, fun hex => ?_⟩, fun h => absurd h hne⟩
    exact absurd ((findLargestObject_gt_iff objectList partSizeMax).mpr hex) hl

/-- Witness for C3 at a concrete input (one object of 5 GiB + 1). -/
theorem buildInMemoryConcat_sourceTooLarge_witness :
    (buildInMemoryConcat [⟨"big", 5368709121, []⟩] 0 0).2
        = some BuildError.sourceTooLarge ∧
    (buildInMemoryConcat [⟨"big", 5368709121, []⟩] 0 0).1 = [] := by
  have h := buildInMemoryConcat_sourceTooLarge_iff [⟨"big", 5368709121, []⟩] 0 0
  have h2 : (buildInMemoryConcat [⟨"big", 5368709121, []⟩] 0 0).2
      = some BuildError.sourceTooLarge :=
    h.1.mpr ⟨⟨"big", 5368709121, []⟩, by simp, by decide⟩
  exact ⟨h2, h.2 h2⟩

/-! ## Claim C2 -/

/-- C2: for every plan whose total size exceeds `partSizeMin`, the byte
stream assembled by the grouped in-memory path — each group tarred into
its own buffer, the 1024-byte trailer stripped from every non-terminal
group but kept on the terminal one, and the buffers concatenated in
group order — equals the single-pass tar of the whole plan:
header(i) then payload(i) then pad(i) for every member, followed by two
zero blocks. -/
theorem inMemory_mpu_byte_equivalence (objectList : List S3Obj)
    (estimatedSize userMaxPartSize : Nat)
    (htot : partSizeMin < sumSize objectList)
    (hest : fileSizeMin ≤ estimatedSize)
    (hok : (buildInMemoryConcat objectList estimatedSize userMaxPartSize).2
      = none) :
    archiveBytes (buildInMemoryConcat objectList estimatedSize
        userMaxPartSize).1
      = singlePassTar objectList := by
  have he : ¬ estimatedSize < fileSizeMin := not_lt.mpr hest
  by_cases hl : findLargestObject objectList > partSizeMax
  · rw [buildInMemoryConcat, if_pos hl] at hok
    simp at hok
  · by_cases hg : (splitSliceBySizeLimit
        (findMinimumPartSize estimatedSize userMaxPartSize)
        objectList).length > maxPartNumLimit
    · rw [buildInMemoryConcat, if_neg hl, if_neg he, if_pos hg] at hok
      simp at hok
    · rw [buildInMemoryConcat_mpu objectList estimatedSize userMaxPartSize
        hl he hg]
      have hflat : (splitSliceBySizeLimit
          (findMinimumPartSize estimatedSize userMaxPartSize)
          objectList).flatten = objectList := by
        simpa using splitAux_join
          (findMinimumPartSize estimatedSize userMaxPartSize) objectList [] 0
      have hne : splitSliceBySizeLimit
          (findMinimumPartSize estimatedSize userMaxPartSize) objectList
          ≠ [] := by
        intro h0
        rw [h0] at hflat
        simp at hflat
        rw [hflat] at htot
        simp only [sumSize] at htot
        exact Nat.not_lt_zero _ htot
      show archiveBytes (StoreAction.createMultipartUpload ::
          ((partsOf 1 (splitSliceBySizeLimit
              (findMinimumPartSize estimatedSize userMaxPartSize)
              objectList)).map fun p => StoreAction.uploadPart p.1 p.2) ++
          [StoreAction.completeMultipartUpload])
        = singlePassTar objectList
      rw [archiveBytes_mpu, partsOf_bytes _ 1 hne, hflat,
        ← tarGroup_eq_singlePassTar, tarGroup]

/-- Witness for C2 at a concrete input (two 3 MiB members grouped into a
single terminal part). -/
theorem inMemory_mpu_byte_equivalence_witness :
    archiveBytes (buildInMemoryConcat
        [⟨"a", 3145728, []⟩, ⟨"b", 3145728, []⟩] fileSizeMin 0).1
      = singlePassTar [⟨"a", 3145728, []⟩, ⟨"b", 3145728, []⟩] :=
  inMemory_mpu_byte_equivalence [⟨"a", 3145728, []⟩, ⟨"b", 3145728, []⟩]
    fileSizeMin 0 (by decide) (le_refl _) (by decide)

/-! ## Claim C4 -/

/-- C4: for every object list whose members pass the 5 GiB check and
whose estimated size is at least `fileSizeMin`, if the greedy grouping
produces more than `maxPartNumLimit` groups then `buildInMemoryConcat`
fails with the part-budget error before `CreateMultipartUpload` is
invoked (the action trace is empty); otherwise it issues exactly one
multipart part per group, numbered 1..N in group order. -/
theorem buildInMemoryConcat_partBudget (objectList : List S3Obj)
    (estimatedSize userMaxPartSize : Nat)
    (hest : fileSizeMin ≤ estimatedSize)
    (hsizes : ∀ o ∈ objectList, o.size ≤ partSizeMax) :
    (maxPartNumLimit < (splitSliceBySizeLimit
        (findMinimumPartSize estimatedSize userMaxPartSize)
        objectList).length →
      buildInMemoryConcat objectList estimatedSize userMaxPartSize
        = ([], some BuildError.partBudgetExceeded)) ∧
    ((splitSliceBySizeLimit
        (findMinimumPartSize estimatedSize userMaxPartSize)
        objectList).length ≤ maxPartNumLimit →
      buildInMemoryConcat objectList estimatedSize userMaxPartSize
        = (StoreAction.createMultipartUpload ::
            ((partsOf 1 (splitSliceBySizeLimit
                (findMinimumPartSize estimatedSize userMaxPartSize)
                objectList)).map fun p => StoreAction.uploadPart p.1 p.2) ++
            [StoreAction.completeMultipartUpload], none) ∧
      (partsOf 1 (splitSliceBySizeLimit
          (findMinimumPartSize estimatedSize userMaxPartSize)
          objectList)).map Prod.fst
        = List.range' 1 (splitSliceBySizeLimit
            (findMinimumPartSize estimatedSize userMaxPartSize)
            objectList).length ∧
      (partsOf 1 (splitSliceBySizeLimit
          (findMinimumPartSize estimatedSize userMaxPartSize)
          objectList)).length
        = (splitSliceBySizeLimit
            (findMinimumPartSize estimatedSize userMaxPartSize)
            objectList).length) := by
  have he : ¬ estimatedSize < fileSizeMin := not_lt.mpr hest
  have hl : ¬ findLargestObject objectList > partSizeMax := by
    intro h
    rcases (findLargestObject_gt_iff objectList partSizeMax).mp h
      with ⟨o, ho, hlt⟩
    exact absurd (hsizes o ho) (not_le.mpr hlt)
  constructor
  · intro hg
    rw [buildInMemoryConcat, if_neg hl, if_neg he, if_pos hg]
  · intro hg
    refine ⟨buildInMemoryConcat_mpu objectList estimatedSize userMaxPartSize
      hl he (not_lt.mpr hg), partsOf_numbers _ 1, partsOf_length _ 1⟩

/-- Witness for C4 at a concrete input (one 6 MiB member, one group). -/
theorem buildInMemoryConcat_partBudget_witness :
    buildInMemoryConcat [⟨"a", 6291456, []⟩] fileSizeMin 0
      = (StoreAction.createMultipartUpload ::
          ((partsOf 1 (splitSliceBySizeLimit
              (findMinimumPartSize fileSizeMin 0)
              [⟨"a", 6291456, []⟩])).map
            fun p => StoreAction.uploadPart p.1 p.2) ++
          [StoreAction.completeMultipartUpload], none) :=
  ((buildInMemoryConcat_partBudget [⟨"a", 6291456, []⟩] fileSizeMin 0
    (le_refl _) (by decide)).2 (by decide)).1

/-! ## Claim C6 -/

/-- C6: for every object list the in-memory assembler accepts, the
number of multipart parts produced is at most `maxPartNumLimit`, and
every non-terminal part's uploaded byte size is at least `partSizeMin`
(each non-terminal group is closed only once its payload exceeds
`fileSizeMin`, and the stripped buffer still contains the headers on top
of the payloads). -/
theorem inMemory_part_budget_invariant (objectList : List S3Obj)
    (estimatedSize userMaxPartSize : Nat)
    (hdata : ∀ o ∈ objectList, o.data.length = o.size)
    (hok : (buildInMemoryConcat objectList estimatedSize userMaxPartSize).2
      = none) :
    (uploadedParts (buildInMemoryConcat objectList estimatedSize
        userMaxPartSize).1).length ≤ maxPartNumLimit ∧
    ∀ p ∈ (uploadedParts (buildInMemoryConcat objectList estimatedSize
        userMaxPartSize).1).dropLast,
      partSizeMin ≤ p.2.length := by
  by_cases hl : findLargestObject objectList > partSizeMax
  · rw [buildInMemoryConcat, if_pos hl] at hok
    simp at hok
  · by_cases he : estimatedSize < fileSizeMin
    · have htr : (buildInMemoryConcat objectList estimatedSize
          userMaxPartSize).1 = [StoreAction.putObject (tarGroup objectList)] := by
        rw [buildInMemoryConcat, if_neg hl, if_pos he]
      have hup : uploadedParts [StoreAction.putObject (tarGroup objectList)]
          = [] := rfl
      rw [htr, hup]
      refine ⟨by simp, by simp⟩
    · by_cases hg : (splitSliceBySizeLimit
          (findMinimumPartSize estimatedSize userMaxPartSize)
          objectList).length > maxPartNumLimit
      · rw [buildInMemoryConcat, if_neg hl, if_neg he, if_pos hg] at hok
        simp at hok
      · have htr : (buildInMemoryConcat objectList estimatedSize
            userMaxPartSize).1
            = StoreAction.createMultipartUpload ::
              ((partsOf 1 (splitSliceBySizeLimit
                  (findMinimumPartSize estimatedSize userMaxPartSize)
                  objectList)).map fun p => StoreAction.uploadPart p.1 p.2) ++
              [StoreAction.completeMultipartUpload] := by
          rw [buildInMemoryConcat_mpu objectList estimatedSize userMaxPartSize
            hl he hg]
        rw [htr, uploadedParts_mpu]
        refine ⟨?_, ?_⟩
        · rw [partsOf_length]
          exact not_lt.mp hg
        · intro p hp
          rcases partsOf_dropLast _ 1 p hp with ⟨g, hgmem, hpe⟩
          have hgt : fileSizeMin < sumSize g := by
            have h := splitAux_dropLast_gt
              (findMinimumPartSize estimatedSize userMaxPartSize) objectList []
            simp only [sumSize] at h
            exact h g hgmem
          have hglen : sumSize g ≤ (tarBody g).length := by
            apply sumSize_le_tarBody_length
            intro o ho
            apply hdata
            have hgin : g ∈ splitSliceBySizeLimit
                (findMinimumPartSize estimatedSize userMaxPartSize)
                objectList := List.mem_of_mem_dropLast hgmem
            have hoin : o ∈ (splitSliceBySizeLimit
                (findMinimumPartSize estimatedSize userMaxPartSize)
                objectList).flatten := List.mem_flatten.mpr ⟨g, hgin, ho⟩
            have hflat : (splitSliceBySizeLimit
                (findMinimumPartSize estimatedSize userMaxPartSize)
                objectList).flatten = objectList := by
              simpa using splitAux_join
                (findMinimumPartSize estimatedSize userMaxPartSize)
                objectList [] 0
            rwa [hflat] at hoin
          rw [hpe, stripTrailer_tarGroup]
          calc partSizeMin = fileSizeMin := rfl
            _ ≤ sumSize g := le_of_lt hgt
            _ ≤ (tarBody g).length := hglen

/-- Witness for C6 at a concrete input (the empty plan taking the
single-PutObject path: no multipart parts at all). -/
theorem inMemory_part_budget_invariant_witness :
    (uploadedParts (buildInMemoryConcat [] 0 0).1).length
      ≤ maxPartNumLimit :=
  (inMemory_part_budget_invariant [] 0 0 (by simp) rfl).1

/-! ## Claim C9 -/

/-- Name bytes read back from the front of an archive: the first header
block's 100-byte name field up to its zero padding. -/
def firstMemberName (bytes : List Nat) : List Nat :=
  (bytes.take 100).takeWhile fun b => b != 0

theorem takeWhile_ne_append (l t : List Nat) (h : ∀ b ∈ l, b ≠ 0) :
    (l ++ t).takeWhile (fun b => b != 0)
      = l ++ t.takeWhile (fun b => b != 0) := by
  induction l with
  | nil => simp
  | cons b bs ih =>
    have hb : b ≠ 0 := h b (by simp)
    simp only [List.cons_append, List.takeWhile_cons, bne_iff_ne, ne_eq, hb,
      not_false_eq_true, if_true]
    rw [ih (fun x hx => h x (List.mem_cons_of_mem _ hx))]

theorem takeWhile_replicate_zero (k : Nat) :
    (List.replicate k (0 : Nat)).takeWhile (fun b => b != 0) = [] := by
  cases k with
  | zero => rfl
  | succ n => simp [List.replicate_succ, List.takeWhile_cons]

theorem firstMemberName_tarGroup (o : S3Obj) (rest : List S3Obj)
    (hlen : o.key.length ≤ 100)
    (hnz : ∀ c ∈ o.key.toList, c.toNat ≠ 0) :
    firstMemberName (tarGroup (o :: rest)) = o.key.toList.map Char.toNat := by
  have hassoc : tarGroup (o :: rest)
      = nameField o.key ++ (sizeField o.size ++ List.replicate 400 0 ++
          o.data ++ List.replicate (padLen o.size) 0 ++
          (tarBody rest ++ List.replicate 1024 0)) := by
    simp [tarGroup, tarBody, tarMember, headerBlock]
  have htake : (tarGroup (o :: rest)).take 100 = nameField o.key := by
    rw [hassoc, ← nameField_length o.key, List.take_left]
  have hkeylen : (o.key.toList.map Char.toNat).length ≤ 100 := by
    rw [List.length_map]
    exact le_trans (le_of_eq rfl) hlen
  have hname : nameField o.key
      = o.key.toList.map Char.toNat ++ List.replicate (100 - o.key.length) 0 := by
    rw [nameField, List.take_of_length_le hkeylen]
  unfold firstMemberName
  rw [htake, hname, takeWhile_ne_append, takeWhile_replicate_zero,
    List.append_nil]
  intro b hb
  rcases List.mem_map.mp hb with ⟨c, hc, hbc⟩
  rw [← hbc]
  exact hnz c hc

/-- C9: the archive produced by `buildInMemoryConcat` contains no
embedded TOC member: the whole input object list is tarred as given (the
TOC block is commented out in the source), so the archive's bytes are
the plain tar of the input and its first tar member carries the first
user object's key, not a synthesized `.toc.csv` entry. -/
theorem inMemory_no_toc (objectList : List S3Obj)
    (estimatedSize userMaxPartSize : Nat)
    (hne : objectList ≠ [])
    (hok : (buildInMemoryConcat objectList estimatedSize userMaxPartSize).2
      = none) :
    archiveBytes (buildInMemoryConcat objectList estimatedSize
        userMaxPartSize).1 = tarGroup objectList ∧
    ((objectList.head hne).key.length ≤ 100 →
      (∀ c ∈ (objectList.head hne).key.toList, c.toNat ≠ 0) →
      firstMemberName (archiveBytes (buildInMemoryConcat objectList
          estimatedSize userMaxPartSize).1)
        = (objectList.head hne).key.toList.map Char.toNat) := by
  have hbytes : archiveBytes (buildInMemoryConcat objectList estimatedSize
      userMaxPartSize).1 = tarGroup objectList := by
    by_cases hl : findLargestObject objectList > partSizeMax
    · rw [buildInMemoryConcat, if_pos hl] at hok
      simp at hok
    · by_cases he : estimatedSize < fileSizeMin
      · have htr : (buildInMemoryConcat objectList estimatedSize
            userMaxPartSize).1
            = [StoreAction.putObject (tarGroup objectList)] := by
          rw [buildInMemoryConcat, if_neg hl, if_pos he]
        rw [htr]
        simp [archiveBytes]
      · by_cases hg : (splitSliceBySizeLimit
            (findMinimumPartSize estimatedSize userMaxPartSize)
            objectList).length > maxPartNumLimit
        · rw [buildInMemoryConcat, if_neg hl, if_neg he, if_pos hg] at hok
          simp at hok
        · have htr : (buildInMemoryConcat objectList estimatedSize
              userMaxPartSize).1
              = StoreAction.createMultipartUpload ::
                ((partsOf 1 (splitSliceBySizeLimit
                    (findMinimumPartSize estimatedSize userMaxPartSize)
                    objectList)).map
                  fun p => StoreAction.uploadPart p.1 p.2) ++
                [StoreAction.completeMultipartUpload] := by
            rw [buildInMemoryConcat_mpu objectList estimatedSize
              userMaxPartSize hl he hg]
          have hflat : (splitSliceBySizeLimit
              (findMinimumPartSize estimatedSize userMaxPartSize)
              objectList).flatten = objectList := by
            simpa using splitAux_join
              (findMinimumPartSize estimatedSize userMaxPartSize)
              objectList [] 0
          have hgne : splitSliceBySizeLimit
              (findMinimumPartSize estimatedSize userMaxPartSize)
              objectList ≠ [] := by
            intro h0
            rw [h0] at hflat
            simp at hflat
            exact hne hflat
          rw [htr, archiveBytes_mpu, partsOf_bytes _ 1 hgne, hflat, tarGroup]
  refine ⟨hbytes, fun hlen hnz => ?_⟩
  rw [hbytes]
  rcases objectList with _ | ⟨o, rest⟩
  · exact absurd rfl hne
  · simp only [List.head_cons] at hlen hnz ⊢
    exact firstMemberName_tarGroup o rest hlen hnz

/-- Witness for C9 at a concrete input (a single one-byte member whose
key is "a"). -/
theorem inMemory_no_toc_witness :
    firstMemberName (archiveBytes (buildInMemoryConcat
        [⟨"a", 1, [65]⟩] 0 0).1)
      = "a".toList.map Char.toNat := by
  have h := inMemory_no_toc [⟨"a", 1, [65]⟩] 0 0 (by decide) rfl
  simpa using h.2 (by decide) (by decide)

/-! ## Claim C7 -/

/-- Modelled from the spec: `ExtractBucketAndPath` (utils.go, absent
from the present sources; its behavior is pinned by
TestExtractBucketAndPath).  An input of the form s3://bucket/key yields
the bucket (the authority up to the first slash) and the key without
its leading slash; any input not beginning with s3:// is invalid and
yields empty outputs. -/
def ExtractBucketAndPath (s : String) : String × String :=
  match s.toList with
  | 's' :: '3' :: ':' :: '/' :: '/' :: rest =>
    (String.mk (rest.takeWhile fun c => c != '/'),
     String.mk ((rest.dropWhile fun c => c != '/').drop 1))
  | _ => ("", "")

theorem takeWhile_ne_slash (l : List Char) (h : ∀ c ∈ l, c ≠ '/') :
    ∀ t, (l ++ t).takeWhile (fun c => c != '/')
      = l ++ t.takeWhile (fun c => c != '/') := by
  induction l with
  | nil => intro t; simp
  | cons c cs ih =>
    intro t
    have hc : c ≠ '/' := h c (by simp)
    simp only [List.cons_append, List.takeWhile_cons, bne_iff_ne, ne_eq, hc,
      not_false_eq_true, if_true]
    rw [ih (fun x hx => h x (List.mem_cons_of_mem _ hx)) t]

theorem dropWhile_ne_slash (l : List Char) (h : ∀ c ∈ l, c ≠ '/') :
    ∀ t, (l ++ t).dropWhile (fun c => c != '/')
      = t.dropWhile (fun c => c != '/') := by
  induction l with
  | nil => intro t; simp
  | cons c cs ih =>
    intro t
    have hc : c ≠ '/' := h c (by simp)
    simp only [List.cons_append, List.dropWhile_cons, bne_iff_ne, ne_eq, hc,
      not_false_eq_true, if_true]
    exact ih (fun x hx => h x (List.mem_cons_of_mem _ hx)) t

/-- C7: `ExtractBucketAndPath` returns the bucket and the key without a
leading slash when the input begins with s3:// (stated for a
slash-free bucket segment, with and without a key part), and returns
empty bucket and empty path for every input not beginning with s3://
(including the empty string and local filesystem paths). -/
theorem ExtractBucketAndPath_spec :
    (∀ b p : List Char, (∀ c ∈ b, c ≠ '/') →
      ExtractBucketAndPath (String.mk
          ('s' :: '3' :: ':' :: '/' :: '/' :: (b ++ '/' :: p)))
        = (String.mk b, String.mk p)) ∧
    (∀ b : List Char, (∀ c ∈ b, c ≠ '/') →
      ExtractBucketAndPath (String.mk ('s' :: '3' :: ':' :: '/' :: '/' :: b))
        = (String.mk b, "")) ∧
    (∀ s : String, (∀ rest : List Char,
        s.toList ≠ 's' :: '3' :: ':' :: '/' :: '/' :: rest) →
      ExtractBucketAndPath s = ("", "")) := by
  refine ⟨?_, ?_, ?_⟩
  · intro b p hb
    show (String.mk ((b ++ '/' :: p).takeWhile fun c => c != '/'),
        String.mk (((b ++ '/' :: p).dropWhile fun c => c != '/').drop 1))
      = (String.mk b, String.mk p)
    rw [takeWhile_ne_slash b hb ('/' :: p), dropWhile_ne_slash b hb ('/' :: p)]
    simp [List.takeWhile_cons, List.dropWhile_cons]
  · intro b hb
    show (String.mk (b.takeWhile fun c => c != '/'),
        String.mk ((b.dropWhile fun c => c != '/').drop 1))
      = (String.mk b, "")
    have h1 : b.takeWhile (fun c => c != '/') = b := by
      have := takeWhile_ne_slash b hb []
      simpa using this
    have h2 : b.dropWhile (fun c => c != '/') = [] := by
      have := dropWhile_ne_slash b hb []
      simpa using this
    rw [h1, h2]
    rfl
  · intro s hns
    unfold ExtractBucketAndPath
    split
    · next rest heq => exact absurd heq (hns rest)
    · rfl

/-- Witness for C7 at the concrete inputs of the unit tests. -/
theorem ExtractBucketAndPath_witness :
    ExtractBucketAndPath "s3://bucket/prefix" = ("bucket", "prefix") ∧
    ExtractBucketAndPath "/home/yanko" = ("", "") := by
  constructor
  · have h := ExtractBucketAndPath_spec.1 "bucket".toList "prefix".toList
      (by decide)
    have he : String.mk ('s' :: '3' :: ':' :: '/' :: '/' ::
        ("bucket".toList ++ '/' :: "prefix".toList)) = "s3://bucket/prefix" := by
      decide
    have hb : String.mk "bucket".toList = "bucket" := by decide
    have hp : String.mk "prefix".toList = "prefix" := by decide
    rw [he, hb, hp] at h
    exact h
  · refine ExtractBucketAndPath_spec.2.2 "/home/yanko" ?_
    intro rest h
    have h1 : "/home/yanko".toList.take 1 = ['s'] := by rw [h]; rfl
    exact absurd h1 (by decide)

/-! ## Claim C8 -/

/-- Modelled from the spec: splitting the exclude pattern on the
alternation bar, as Go strings.Split does (an empty pattern yields one
empty alternative). -/
def splitOnChar (sep : Char) : List Char → List (List Char)
  | [] => [[]]
  | c :: rest =>
    if c = sep then [] :: splitOnChar sep rest
    else
      match splitOnChar sep rest with
      | [] => [[c]]
      | g :: gs => (c :: g) :: gs

/-- Regex tokens producible by the glob translation: a literal
character (the escaped dot included), the dot obtained from a question
mark, and the dot-star obtained from a star. -/
inductive RTok where
  | lit (c : Char)
  | dot
  | star
  deriving DecidableEq

/-- Modelled from the spec: the per-alternative translation — `.` is
escaped (kept literal), `*` becomes dot-star, `?` becomes dot; every
other character passes through unescaped. -/
def translateAlt (cs : List Char) : List RTok :=
  cs.map fun c =>
    if c = '*' then RTok.star else if c = '?' then RTok.dot else RTok.lit c

/-- Modelled from the unit tests: the translated pattern fails to
compile as a regular expression exactly when it contains a `[` with no
closing `]` after it — `[` is a metacharacter the translation does not
escape, and an unclosed class is the compile failure the tests
exercise. -/
def hasUnclosedBracket : List Char → Bool
  | [] => false
  | c :: rest =>
    if c = '[' then (!(rest.contains ']')) || hasUnclosedBracket rest
    else hasUnclosedBracket rest

/-- Anchored matching of a translated token list: dot-star consumes an
arbitrary prefix (some suffix must match the rest), dot consumes one
character, a literal consumes itself. -/
def rmatch : List RTok → List Char → Bool
  | [], cs => cs.isEmpty
  | RTok.star :: ts, cs => cs.tails.any fun suf => rmatch ts suf
  | RTok.dot :: ts, cs => !cs.isEmpty && rmatch ts (cs.drop 1)
  | RTok.lit c :: ts, cs => (cs.head? == some c) && rmatch ts (cs.drop 1)

/-- Glob matching as the specification words it: `*` matches any
sequence, `?` any single character, anything else itself; whole-name
matching.  Stated from the spec's words to be compared against the
translation pipeline. -/
def globMatch : List Char → List Char → Bool
  | [], cs => cs.isEmpty
  | a :: ps, cs =>
    if a = '*' then cs.tails.any fun suf => globMatch ps suf
    else if a = '?' then !cs.isEmpty && globMatch ps (cs.drop 1)
    else (cs.head? == some a) && globMatch ps (cs.drop 1)

/-- The alternative loop of `matchesRegexp`: compile and try each
alternative in order, returning true on the first match and an error on
the first alternative that fails to compile. -/
def matchesAux (inp : List Char) : List (List Char) → Except String Bool
  | [] => Except.ok false
  | alt :: rest =>
    if hasUnclosedBracket alt then Except.error "missing closing ]"
    else if rmatch (translateAlt alt) inp then Except.ok true
    else matchesAux inp rest

/-- Modelled from the spec and the unit tests: `matchesRegexp`
(utils.go, absent from the present sources; pinned by
TestMatchesRegexp).  The pattern is a disjunction of glob-like
alternatives joined by the bar; each alternative is translated and
compiled in turn. -/
def matchesRegexp (input pattern : String) : Except String Bool :=
  matchesAux input.toList (splitOnChar '|' pattern.toList)

theorem hasUnclosedBracket_eq_false (l : List Char)
    (h : l.contains '[' = false) :
    hasUnclosedBracket l = false := by
  induction l with
  | nil => rfl
  | cons c rest ih =>
    simp only [List.contains_cons, Bool.or_eq_false_iff,
      beq_eq_false_iff_ne, ne_eq] at h
    have hc : ¬ c = '[' := fun hh => h.1 hh.symm
    rw [hasUnclosedBracket, if_neg hc]
    exact ih h.2

theorem rmatch_translateAlt (alt : List Char) :
    ∀ cs, rmatch (translateAlt alt) cs = globMatch alt cs := by
  induction alt with
  | nil => intro cs; rfl
  | cons a ps ih =>
    intro cs
    have hta : translateAlt (a :: ps)
        = (if a = '*' then RTok.star else if a = '?' then RTok.dot
            else RTok.lit a) :: translateAlt ps := rfl
    rw [hta]
    by_cases h1 : a = '*'
    · subst h1
      rw [if_pos rfl, rmatch, globMatch, if_pos rfl]
      congr 1
      funext suf
      exact ih suf
    · by_cases h2 : a = '?'
      · subst h2
        rw [if_neg h1, if_pos rfl, rmatch, globMatch, if_neg h1, if_pos rfl,
          ih (List.drop 1 cs)]
      · rw [if_neg h1, if_neg h2, rmatch, globMatch, if_neg h1, if_neg h2,
          ih (List.drop 1 cs)]

theorem matchesAux_glob (inp : List Char) (alts : List (List Char))
    (hb : ∀ alt ∈ alts, alt.contains '[' = false) :
    matchesAux inp alts
      = Except.ok (alts.any fun alt => globMatch alt inp) := by
  induction alts with
  | nil => rfl
  | cons alt rest ih =>
    have h1 : hasUnclosedBracket alt = false :=
      hasUnclosedBracket_eq_false alt (hb alt (by simp))
    rw [matchesAux, if_neg (by simp [h1])]
    by_cases hm : rmatch (translateAlt alt) inp = true
    · rw [if_pos hm]
      rw [rmatch_translateAlt alt inp] at hm
      simp [List.any_cons, hm]
    · rw [if_neg hm]
      rw [ih (fun a ha => hb a (List.mem_cons_of_mem _ ha))]
      rw [rmatch_translateAlt alt inp] at hm
      simp only [Bool.not_eq_true] at hm
      simp [List.any_cons, hm]

/-- C8 counterexample: the translation escapes only the dot, not every
regex metacharacter, so the pattern of the unit test "invalid regex
pattern" — `[*.txt` against input `file.txt` — fails to compile:
`matchesRegexp` returns an error, refuting the claim that no pattern
yields a regex-compilation error (the behavior the test in
utils_test.go demands). -/
theorem matchesRegexp_error_cex :
    matchesRegexp "file.txt" "[*.txt" = Except.error "missing closing ]" := by
  rfl

/-- C8 (amended): `matchesRegexp` treats the pattern as a disjunction of
glob-like alternatives joined by the bar, translating each alternative
by escaping `.` and mapping `*` to dot-star and `?` to dot while
passing other regex metacharacters through unescaped; for patterns
whose alternatives contain no `[`, no compile error arises and the
result is whether the name glob-matches some alternative, while an
alternative with an unclosed `[` yields a regex-compilation error when
reached. -/
theorem matchesRegexp_glob (input pattern : String)
    (hb : ∀ alt ∈ splitOnChar '|' pattern.toList, alt.contains '[' = false) :
    matchesRegexp input pattern
      = Except.ok ((splitOnChar '|' pattern.toList).any
          fun alt => globMatch alt input.toList) :=
  matchesAux_glob input.toList (splitOnChar '|' pattern.toList) hb

/-- Witness for the amended C8 at the concrete inputs of the unit test
"match with multiple patterns". -/
theorem matchesRegexp_glob_witness :
    matchesRegexp "file.txt" "*.jpg|*.txt" = Except.ok true := by
  have h := matchesRegexp_glob "file.txt" "*.jpg|*.txt" (by decide)
  rw [h]
  rfl
